import Mathlib

/-!
Shallow embedding of the Vehicle Auction System (FastAPI application:
`main.py`, `models.py`, `schemas.py`).

Timestamps and fixed-point decimal amounts are modelled as integers
(`Int`): the code only compares them and copies them, so any linearly
ordered carrier is faithful; `Int` keeps everything decidable.

The database session is modelled as an explicit record `DB` holding the
`vehicles` and `bids` tables as lists in insertion (primary-key) order;
ORM mutation plus `db.commit()` becomes a pure state transformer.
-/

namespace VehicleAuction

/-- The fields of `models.User` that the auction logic reads. -/
structure User where
  id : Nat
  isAdmin : Bool
  deriving Repr, DecidableEq

/-- The fields of `models.Vehicle` that the auction logic reads or writes:
`starting_price`, `current_price`, `auction_end`, `is_active`, `owner_id`. -/
structure Vehicle where
  id : Nat
  startingPrice : Int
  currentPrice : Int
  auctionEnd : Int
  isActive : Bool
  ownerId : Option Nat
  deriving Repr, DecidableEq

/-- The fields of `models.Bid`: `amount`, `user_id`, `vehicle_id`,
`created_at` (assigned at acceptance). -/
structure Bid where
  id : Nat
  amount : Int
  userId : Nat
  vehicleId : Nat
  createdAt : Int
  deriving Repr, DecidableEq

/-- Request body of `POST /api/bids` (`schemas.BidCreate`). -/
structure BidCreate where
  amount : Int
  vehicleId : Nat
  deriving Repr, DecidableEq

/-- The two ORM tables the auction engine touches, in insertion order. -/
structure DB where
  vehicles : List Vehicle
  bids : List Bid
  deriving Repr, DecidableEq

/-- The rejection outcomes of `api_place_bid` in `main.py`:
401 login required, 403 admins cannot bid, 404 vehicle not found,
400 auction has ended, 400 auction period has expired,
400 bid must be greater than current price.  Note the source has no
`Conflict` outcome and no retry path. -/
inductive BidError where
  | unauthorized
  | adminForbidden
  | notFound
  | closed
  | expired
  | tooLow
  deriving Repr, DecidableEq

/-- The spec's `Unauthorized` bucket: missing identity (401) or an
administrative identity attempting to bid (403). -/
def BidError.isAuthError : BidError → Bool
  | .unauthorized => true
  | .adminForbidden => true
  | _ => false

/-- `db.query(Vehicle).filter(Vehicle.id == vid).first()`. -/
def findVehicle (db : DB) (vid : Nat) : Option Vehicle :=
  db.vehicles.find? (fun v => v.id = vid)

/-- `db.query(Bid).filter(Bid.vehicle_id == vid)`: the bid history of one
lot, in insertion (acceptance) order. -/
def lotBids (db : DB) (vid : Nat) : List Bid :=
  db.bids.filter (fun b => b.vehicleId = vid)

/-- `POST /api/bids` (`api_place_bid` in `main.py`), the sequential
behaviour of one request: returns the persisted bid or the HTTP error,
together with the database state after the request.  `now` stands for
`datetime.now()`, `newBidId` for the autoincrement primary key the
insert would assign. -/
def api_place_bid (db : DB) (user : Option User) (bid : BidCreate)
    (now : Int) (newBidId : Nat) : Except BidError Bid × DB :=
  match user with
  | none => (.error .unauthorized, db)
  | some u =>
    if u.isAdmin then (.error .adminForbidden, db)
    else
      match findVehicle db bid.vehicleId with
      | none => (.error .notFound, db)
      | some v =>
        if v.isActive = false then (.error .closed, db)
        else if v.auctionEnd ≤ now then (.error .expired, db)
        else if bid.amount ≤ v.currentPrice then (.error .tooLow, db)
        else
          let nb : Bid :=
            { id := newBidId, amount := bid.amount, userId := u.id,
              vehicleId := v.id, createdAt := now }
          (.ok nb,
           { vehicles := db.vehicles.map (fun w =>
               if w.id = v.id then { w with currentPrice := bid.amount } else w),
             bids := db.bids ++ [nb] })

/-! ### Two-phase view of `api_place_bid`

The bid handler first reads the vehicle row and validates the bid
against the `current_price` it read (`main.py` lines 367-378), then
unconditionally writes `vehicle.current_price = bid.amount`, inserts the
bid row and commits (lines 380-384).  The two phases below are that
split, verbatim; `api_place_bid` is their sequential composition
(proved below).  Interleaving the phases of two requests exposes the
behaviour of the handler when its read and its commit are separated by
another writer. -/

/-- Validation phase of `api_place_bid` (`main.py` lines 364-378): the
admin check followed by the read-and-check part against the vehicle
row.  On success it returns the `current_price` value that was read
during validation.  No state change. -/
def validateBid (db : DB) (u : User) (bid : BidCreate) (now : Int) :
    Except BidError Int :=
  if u.isAdmin then .error .adminForbidden
  else
    match findVehicle db bid.vehicleId with
    | none => .error .notFound
    | some v =>
      if v.isActive = false then .error .closed
      else if v.auctionEnd ≤ now then .error .expired
      else if bid.amount ≤ v.currentPrice then .error .tooLow
      else .ok v.currentPrice

/-- Commit phase of `api_place_bid` (`main.py` lines 380-384): builds the
`Bid` row, sets `vehicle.current_price = bid.amount` and commits.  The
write is unconditional — the source compares nothing at commit time, so
this phase has no failure outcome. -/
def commitBid (db : DB) (u : User) (bid : BidCreate) (now : Int)
    (newBidId : Nat) : Bid × DB :=
  let nb : Bid :=
    { id := newBidId, amount := bid.amount, userId := u.id,
      vehicleId := bid.vehicleId, createdAt := now }
  (nb,
   { vehicles := db.vehicles.map (fun w =>
       if w.id = bid.vehicleId then { w with currentPrice := bid.amount } else w),
     bids := db.bids ++ [nb] })

/-! ### Finalization sweep -/

/-- Contract of the winner query in `finalize_auctions`
(`db.query(Bid).filter(Bid.vehicle_id == v.id).order_by(Bid.amount.desc()).first()`):
the result is `none` exactly when the lot has no bids, and otherwise is
one of the lot's bids of maximal `amount`.  The source specifies no
secondary sort key, so which maximal bid comes first on a tie is left to
the storage engine; any function satisfying this contract is a faithful
reading of the query. -/
def topBidContract (bids : List Bid) (r : Option Bid) : Prop :=
  match r with
  | none => bids = []
  | some b => b ∈ bids ∧ ∀ c ∈ bids, c.amount ≤ b.amount

/-- Linear scan keeping the current best bid; `keepNew c b` decides
whether a newly scanned bid `b` replaces the current best `c`. -/
def scanMaxGo (keepNew : Bid → Bid → Bool) (c : Bid) : List Bid → Bid
  | [] => c
  | b :: rest =>
    if keepNew c b then scanMaxGo keepNew b rest else scanMaxGo keepNew c rest

/-- Scan a bid list in storage order for a best bid according to
`keepNew`; `none` exactly on the empty list. -/
def scanMax (keepNew : Bid → Bid → Bool) : List Bid → Option Bid
  | [] => none
  | b :: rest => some (scanMaxGo keepNew b rest)

/-- One admissible winner query: a new bid replaces the best only when
strictly greater, so ties resolve to the earliest-inserted maximal bid. -/
def chooseFirstMax : List Bid → Option Bid :=
  scanMax (fun c b => c.amount < b.amount)

/-- Another admissible winner query: a new bid replaces the best when at
least as large, so ties resolve to the latest-inserted maximal bid. -/
def chooseLastMax : List Bid → Option Bid :=
  scanMax (fun c b => c.amount ≤ b.amount)

/-- Body of the `for v in expired` loop of `finalize_auctions`
(`main.py` lines 92-102) applied to one vehicle: if the vehicle is in
the expired set (`is_active` and `auction_end <= now`) it is closed and,
when the winner query returns a bid, `owner_id` is set to that bid's
`user_id`; otherwise the row is untouched.  `choose` is the winner
query, any function satisfying `topBidContract`. -/
def finalizeVehicle (choose : List Bid → Option Bid) (db : DB) (now : Int)
    (v : Vehicle) : Vehicle :=
  if v.isActive = true ∧ v.auctionEnd ≤ now then
    match choose (lotBids db v.id) with
    | some b => { v with isActive := false, ownerId := some b.userId }
    | none => { v with isActive := false }
  else v

/-- `finalize_auctions` (`main.py` lines 84-104): close every active
vehicle whose `auction_end` has passed and assign it to the winner
query's bid, then commit.  The bids table is read but never written. -/
def finalize_auctions (choose : List Bid → Option Bid) (db : DB)
    (now : Int) : DB :=
  { vehicles := db.vehicles.map (finalizeVehicle choose db now),
    bids := db.bids }

/-! ### Bid history -/

/-- Ordering used by `GET /api/vehicles/{id}/bids`: `b` comes before `c`
when `b.created_at >= c.created_at` (descending `created_at`). -/
def placedNoEarlier (b c : Bid) : Prop := c.createdAt ≤ b.createdAt

instance : DecidableRel placedNoEarlier := fun b c =>
  inferInstanceAs (Decidable (c.createdAt ≤ b.createdAt))

instance : IsTotal Bid placedNoEarlier :=
  ⟨fun b c => le_total c.createdAt b.createdAt⟩

instance : IsTrans Bid placedNoEarlier :=
  ⟨fun _ _ _ h h2 => le_trans h2 h⟩

/-- `GET /api/vehicles/{vehicle_id}/bids` (`api_get_bids` in `main.py`):
the lot's bids ordered by `created_at` descending. -/
def api_get_bids (db : DB) (vid : Nat) : List Bid :=
  List.insertionSort placedNoEarlier (lotBids db vid)

/-! ### WebSocket connection manager -/

/-- Observer handles; each live WebSocket connection is a distinct
handle, identified here by a number. -/
abbrev Handle : Type := Nat

/-- `ConnectionManager` (`main.py` lines 37-59): the list of active
WebSocket connections. -/
structure ConnectionManager where
  active : List Handle

/-- `ConnectionManager.disconnect`: remove the handle if present
(`if ws in self.active: self.active.remove(ws)`, which drops the first
occurrence). -/
def ConnectionManager.disconnect (m : ConnectionManager) (ws : Handle) :
    ConnectionManager :=
  { active := m.active.erase ws }

/-- `ConnectionManager.broadcast`: attempt `send_json` to every handle
in `active`; a raised exception is caught and the handle collected in
`dead`, and afterwards every dead handle is disconnected.  The delivery
outcome is modelled by the oracle `ok` (true = send succeeds).  Returns
the list of handles to which delivery was attempted, and the manager
state after pruning; the function is total — no delivery failure
escapes it. -/
def ConnectionManager.broadcast (m : ConnectionManager)
    (ok : Handle → Bool) : List Handle × ConnectionManager :=
  let dead := m.active.filter (fun ws => ok ws = false)
  (m.active, dead.foldl ConnectionManager.disconnect m)

/-- `api_place_bid` followed by its `manager.broadcast` call on the
accepted path (`main.py` lines 386-392): the endpoint's HTTP result is
computed and committed before the broadcast, and the broadcast only
prunes the connection set. -/
def api_place_bid_ws (db : DB) (m : ConnectionManager) (user : Option User)
    (bid : BidCreate) (now : Int) (newBidId : Nat) (ok : Handle → Bool) :
    Except BidError Bid × DB × ConnectionManager :=
  match api_place_bid db user bid now newBidId with
  | (.ok b, db2) => (.ok b, db2, (m.broadcast ok).2)
  | (.error e, db2) => (.error e, db2, m)

/-! ### Administrative operations and the lot state machine -/

/-- `admin_add_vehicle` (`main.py` lines 252-263), the state transition
only: a new vehicle row with `current_price = starting_price`,
`is_active` defaulting to true and `owner_id` null. -/
def admin_add_vehicle (db : DB) (vid : Nat) (startingPrice : Int)
    (auctionEnd : Int) : DB :=
  { db with vehicles := db.vehicles ++
      [{ id := vid, startingPrice := startingPrice,
         currentPrice := startingPrice, auctionEnd := auctionEnd,
         isActive := true, ownerId := none }] }

/-- `admin_update_auction` (`main.py` lines 328-333): set the vehicle's
`auction_end`; no other field is touched. -/
def admin_update_auction (db : DB) (vid : Nat) (newEnd : Int) : DB :=
  { db with vehicles := db.vehicles.map (fun v =>
      if v.id = vid then { v with auctionEnd := newEnd } else v) }

/-- The operations that can touch a lot after the system starts, as they
appear in the source: bid placement, the finalization sweep, and the
administrative reschedule and creation paths. -/
inductive Op where
  | addVehicle (vid : Nat) (startingPrice : Int) (auctionEnd : Int)
  | placeBid (user : Option User) (bid : BidCreate) (now : Int) (newBidId : Nat)
  | sweep (now : Int)
  | reschedule (vid : Nat) (newEnd : Int)

/-- One step of the system: dispatch an operation to the corresponding
source function.  `choose` is the sweep's winner query. -/
def step (choose : List Bid → Option Bid) (db : DB) : Op → DB
  | .addVehicle vid p e => admin_add_vehicle db vid p e
  | .placeBid user bid now nid => (api_place_bid db user bid now nid).2
  | .sweep now => finalize_auctions choose db now
  | .reschedule vid e => admin_update_auction db vid e

/-- Well-formedness the storage engine guarantees: vehicle primary keys
are unique. -/
def uniqIds (db : DB) : Prop := (db.vehicles.map Vehicle.id).Nodup

/-- The price invariant of the data model: every vehicle's
`current_price` equals the `amount` of the most recently accepted bid
for that vehicle (the last row of its append-only bid history), or its
`starting_price` when no bid was accepted. -/
def priceInv (db : DB) : Prop :=
  ∀ v ∈ db.vehicles,
    v.currentPrice = ((lotBids db v.id).getLast?.map Bid.amount).getD
      v.startingPrice

/-- Freshness side conditions under which an operation is issued by the
application: a created vehicle gets a fresh primary key (so no existing
vehicle or bid row references it).  All other operations need nothing. -/
def opFresh (db : DB) : Op → Prop
  | .addVehicle vid _ _ =>
      (∀ v ∈ db.vehicles, v.id ≠ vid) ∧ ∀ b ∈ db.bids, b.vehicleId ≠ vid
  | _ => True

/-! ### Concrete fixtures used by witnesses and counterexamples -/

instance (bids : List Bid) (r : Option Bid) : Decidable (topBidContract bids r) := by
  unfold topBidContract
  cases r <;> infer_instance

instance (db : DB) : Decidable (uniqIds db) := by
  unfold uniqIds
  infer_instance

instance (db : DB) : Decidable (priceInv db) := by
  unfold priceInv
  exact List.decidableBAll _ _

/-- A sample non-admin bidder. -/
def bidder1 : User := { id := 3, isAdmin := false }

/-- A sample second non-admin bidder. -/
def bidder2 : User := { id := 4, isAdmin := false }

/-- A sample administrator. -/
def admin1 : User := { id := 9, isAdmin := true }

/-- A sample open vehicle with price 100 and deadline 10. -/
def vehOpen : Vehicle :=
  { id := 1, startingPrice := 100, currentPrice := 100, auctionEnd := 10,
    isActive := true, ownerId := none }

/-- A sample closed vehicle. -/
def vehClosed : Vehicle :=
  { id := 2, startingPrice := 100, currentPrice := 100, auctionEnd := 10,
    isActive := false, ownerId := none }

/-- A database with one open and one closed vehicle and no bids. -/
def dbSample : DB := { vehicles := [vehOpen, vehClosed], bids := [] }

/-- A sample bid request against the open vehicle. -/
def reqOpen : BidCreate := { amount := 150, vehicleId := 1 }

/-- A sample bid request against the closed vehicle. -/
def reqClosed : BidCreate := { amount := 150, vehicleId := 2 }

/-- A sample accepted bid on vehicle 1. -/
def bidWin : Bid :=
  { id := 1, amount := 150, userId := 3, vehicleId := 1, createdAt := 5 }

/-- A database where vehicle 1 is still open, has one bid, and its
deadline (10) is in the past relative to `now = 20`. -/
def dbBid : DB := { vehicles := [vehOpen, vehClosed], bids := [bidWin] }

/-- First of two tied bids on vehicle 1 (placed earlier). -/
def bidTieA : Bid :=
  { id := 1, amount := 100, userId := 4, vehicleId := 1, createdAt := 0 }

/-- Second of two tied bids on vehicle 1 (same amount, placed later, by a
different bidder). -/
def bidTieB : Bid :=
  { id := 2, amount := 100, userId := 5, vehicleId := 1, createdAt := 1 }

/-- A database whose vehicle 1 carries the two tied bids. -/
def dbTie : DB := { vehicles := [vehOpen], bids := [bidTieA, bidTieB] }

/-- A higher sample bid request against the open vehicle. -/
def reqHigh : BidCreate := { amount := 160, vehicleId := 1 }

/-- A sample connection manager with three distinct live handles. -/
def cmSample : ConnectionManager := { active := [10, 11, 12] }

/-- A delivery oracle under which handle 11 is dead. -/
def okSample : Handle → Bool := fun ws => ws ≠ 11

/-- Vehicle 1 as it stands after the 160 bid has been committed. -/
def vehAfterHigh : Vehicle :=
  { id := 1, startingPrice := 100, currentPrice := 160, auctionEnd := 10,
    isActive := true, ownerId := none }

end VehicleAuction

namespace VehicleAuction

/-! ## Theorems -/

/-- C3: for a bid on an existing lot by an authorized (non-admin) bidder,
the rejection is `Closed` when `is_active` is false — regardless of the
deadline or the amount; otherwise `Expired` when `now >= auction_end`,
even though `is_active` is still true; otherwise `TooLow` when the
amount does not exceed `current_price`.  The three implications hold
simultaneously, so the checks take effect in exactly the source's
order.  In every case the database is returned unchanged. -/
theorem placeBid_rejection_order (db : DB) (u : User) (bid : BidCreate)
    (now : Int) (nid : Nat) (v : Vehicle)
    (hu : u.isAdmin = false) (hv : findVehicle db bid.vehicleId = some v) :
    (v.isActive = false →
      api_place_bid db (some u) bid now nid = (.error .closed, db)) ∧
    (v.isActive = true → v.auctionEnd ≤ now →
      api_place_bid db (some u) bid now nid = (.error .expired, db)) ∧
    (v.isActive = true → now < v.auctionEnd → bid.amount ≤ v.currentPrice →
      api_place_bid db (some u) bid now nid = (.error .tooLow, db)) := by
  refine ⟨fun h1 => ?_, fun h1 h2 => ?_, fun h1 h2 h3 => ?_⟩
  · simp [api_place_bid, hv, hu, h1]
  · simp [api_place_bid, hv, hu, h1, h2]
  · simp [api_place_bid, hv, hu, h1, not_le.mpr h2, h3]

/-- Witness for C3: a concrete closed lot rejects a well-formed bid with
`Closed`. -/
theorem placeBid_rejection_order_witness :
    bidder1.isAdmin = false ∧
    findVehicle dbSample reqClosed.vehicleId = some vehClosed ∧
    vehClosed.isActive = false ∧
    api_place_bid dbSample (some bidder1) reqClosed 0 7 =
      (.error .closed, dbSample) :=
  ⟨by decide, by decide, by decide,
   (placeBid_rejection_order dbSample bidder1 reqClosed 0 7 vehClosed
      (by decide) (by decide)).1 (by decide)⟩

/-- C8: when the caller has no session identity, or is an administrator,
`api_place_bid` returns an authorization error and the database is
unchanged.  The statement is quantified over every database state, so
the rejection happens before — and independently of — any lookup or
validation of the lot; the source contains no retry construct, so the
rejection is produced exactly once per request. -/
theorem placeBid_auth_first (db : DB) (bid : BidCreate) (now : Int)
    (nid : Nat) (user : Option User)
    (h : user = none ∨ ∃ u, user = some u ∧ u.isAdmin = true) :
    ∃ e, api_place_bid db user bid now nid = (.error e, db) ∧
      e.isAuthError = true := by
  rcases h with h | ⟨u, hu, ha⟩
  · exact ⟨.unauthorized, by simp [h, api_place_bid], rfl⟩
  · exact ⟨.adminForbidden, by simp [hu, api_place_bid, ha], rfl⟩

/-- Witness for C8: the concrete administrator is rejected with an
authorization error against the sample database. -/
theorem placeBid_auth_first_witness :
    (some admin1 = none ∨ ∃ u, some admin1 = some u ∧ u.isAdmin = true) ∧
    ∃ e, api_place_bid dbSample (some admin1) reqOpen 0 7 =
      (.error e, dbSample) ∧ e.isAuthError = true :=
  ⟨Or.inr ⟨admin1, rfl, by decide⟩,
   placeBid_auth_first dbSample reqOpen 0 7 (some admin1)
     (Or.inr ⟨admin1, rfl, by decide⟩)⟩

/-- C6: the sweep is idempotent on closed lots.  A lot with
`is_active = false` is left exactly as it is by the per-lot finalization
step, the bids table is never written by the sweep, and running the
whole sweep a second time at the same instant returns the database of
the first run unchanged. -/
theorem sweep_idempotent_closed (choose : List Bid → Option Bid)
    (db : DB) (now : Int) :
    (∀ v ∈ db.vehicles, v.isActive = false →
      finalizeVehicle choose db now v = v) ∧
    (finalize_auctions choose db now).bids = db.bids ∧
    finalize_auctions choose (finalize_auctions choose db now) now =
      finalize_auctions choose db now := by
  refine ⟨fun v _ hc => by simp [finalizeVehicle, hc], rfl, ?_⟩
  unfold finalize_auctions
  simp only [List.map_map]
  congr 1
  apply List.map_congr_left
  intro v _
  by_cases h : v.isActive = true ∧ v.auctionEnd ≤ now
  · cases hc : choose (lotBids db v.id) <;>
      simp [Function.comp, finalizeVehicle, h, hc]
  · simp [Function.comp, finalizeVehicle, h]

/-- Every run of `scanMaxGo` returns the seed or a scanned bid, and that
bid's amount dominates the seed and everything scanned, provided
`keepNew` replaces exactly when the new amount is at least as large. -/
theorem scanMaxGo_spec (keepNew : Bid → Bid → Bool)
    (h1 : ∀ c b, keepNew c b = true → c.amount ≤ b.amount)
    (h2 : ∀ c b, keepNew c b = false → b.amount ≤ c.amount)
    (bids : List Bid) : ∀ c : Bid,
      (scanMaxGo keepNew c bids = c ∨ scanMaxGo keepNew c bids ∈ bids) ∧
      c.amount ≤ (scanMaxGo keepNew c bids).amount ∧
      ∀ d ∈ bids, d.amount ≤ (scanMaxGo keepNew c bids).amount := by
  induction bids with
  | nil => intro c; simp [scanMaxGo]
  | cons b rest ih =>
    intro c
    by_cases hk : keepNew c b = true
    · obtain ⟨hmem, hle, hall⟩ := ih b
      simp only [scanMaxGo, hk, if_true]
      refine ⟨?_, le_trans (h1 c b hk) hle, ?_⟩
      · rcases hmem with h | h
        · exact Or.inr (by simp [h])
        · exact Or.inr (List.mem_cons_of_mem _ h)
      · intro d hd
        rcases List.mem_cons.mp hd with h | h
        · rw [h]; exact hle
        · exact hall d h
    · have hk2 : keepNew c b = false := by simpa using hk
      obtain ⟨hmem, hle, hall⟩ := ih c
      simp only [scanMaxGo, hk2, if_false]
      refine ⟨?_, hle, ?_⟩
      · rcases hmem with h | h
        · exact Or.inl h
        · exact Or.inr (List.mem_cons_of_mem _ h)
      · intro d hd
        rcases List.mem_cons.mp hd with h | h
        · rw [h]; exact le_trans (h2 c b hk2) hle
        · exact hall d h

/-- Any `scanMax` instance whose `keepNew` orders by amount satisfies the
winner-query contract. -/
theorem scanMax_contract (keepNew : Bid → Bid → Bool)
    (h1 : ∀ c b, keepNew c b = true → c.amount ≤ b.amount)
    (h2 : ∀ c b, keepNew c b = false → b.amount ≤ c.amount)
    (bids : List Bid) : topBidContract bids (scanMax keepNew bids) := by
  cases bids with
  | nil => simp [scanMax, topBidContract]
  | cons b rest =>
    obtain ⟨hmem, hle, hall⟩ := scanMaxGo_spec keepNew h1 h2 rest b
    simp only [scanMax, topBidContract]
    refine ⟨?_, ?_⟩
    · rcases hmem with h | h
      · rw [h]; exact List.mem_cons_self b rest
      · exact List.mem_cons_of_mem _ h
    · intro d hd
      rcases List.mem_cons.mp hd with h | h
      · rw [h]; exact hle
      · exact hall d h

/-- The earliest-on-tie scan satisfies the winner-query contract. -/
theorem chooseFirstMax_contract (bids : List Bid) :
    topBidContract bids (chooseFirstMax bids) :=
  scanMax_contract _ (fun c b h => le_of_lt (by simpa using h))
    (fun c b h => not_lt.mp (by simpa using h)) bids

/-- The latest-on-tie scan satisfies the winner-query contract. -/
theorem chooseLastMax_contract (bids : List Bid) :
    topBidContract bids (chooseLastMax bids) :=
  scanMax_contract _ (fun c b h => by simpa using h)
    (fun c b h => le_of_lt (not_le.mp (by simpa using h))) bids

/-- C4: the sweep never writes the bids table; it maps the per-lot
finalization step over the vehicles table; every vehicle with
`is_active = true` and `auction_end <= now` is closed, its price and id
untouched, and — for any winner query satisfying the source query's
contract — its `owner_id` is set to the bidder of a maximal-amount bid
of that lot when one exists, and left as it was (null for an open lot)
when the lot has no bids; vehicles already closed or not yet expired
are returned exactly unchanged. -/
theorem sweep_finalizes_expired (choose : List Bid → Option Bid)
    (hchoose : ∀ bids, topBidContract bids (choose bids))
    (db : DB) (now : Int) (v : Vehicle) (_hv : v ∈ db.vehicles) :
    (finalize_auctions choose db now).bids = db.bids ∧
    (finalize_auctions choose db now).vehicles =
      db.vehicles.map (finalizeVehicle choose db now) ∧
    (v.isActive = true → v.auctionEnd ≤ now →
      (finalizeVehicle choose db now v).isActive = false ∧
      (finalizeVehicle choose db now v).currentPrice = v.currentPrice ∧
      (finalizeVehicle choose db now v).id = v.id ∧
      (lotBids db v.id ≠ [] →
        ∃ b ∈ lotBids db v.id,
          (∀ c ∈ lotBids db v.id, c.amount ≤ b.amount) ∧
          (finalizeVehicle choose db now v).ownerId = some b.userId) ∧
      (lotBids db v.id = [] →
        (finalizeVehicle choose db now v).ownerId = v.ownerId)) ∧
    (v.isActive = false ∨ now < v.auctionEnd →
      finalizeVehicle choose db now v = v) := by
  refine ⟨rfl, rfl, fun h1 h2 => ?_, fun h => ?_⟩
  · have hcon : v.isActive = true ∧ v.auctionEnd ≤ now := ⟨h1, h2⟩
    cases hc : choose (lotBids db v.id) with
    | none =>
      have hnil : lotBids db v.id = [] := by
        have hx := hchoose (lotBids db v.id)
        rw [hc] at hx
        simpa [topBidContract] using hx
      refine ⟨?_, ?_, ?_, fun hne => absurd hnil hne, fun _ => ?_⟩ <;>
        simp [finalizeVehicle, hcon, hc]
    | some b =>
      have hx := hchoose (lotBids db v.id)
      rw [hc] at hx
      have hmem : b ∈ lotBids db v.id ∧ ∀ c ∈ lotBids db v.id, c.amount ≤ b.amount := by
        simpa [topBidContract] using hx
      refine ⟨?_, ?_, ?_, fun _ => ⟨b, hmem.1, hmem.2, ?_⟩, fun hnil => ?_⟩ <;>
        simp [finalizeVehicle, hcon, hc]
      rw [hnil] at hmem
      cases hmem.1
  · have hno : ¬(v.isActive = true ∧ v.auctionEnd ≤ now) := by
      rcases h with h | h
      · simp [h]
      · exact fun hh => absurd hh.2 (not_le.mpr h)
    simp [finalizeVehicle, hno]

/-- Witness for C4: sweeping the concrete database at `now = 20` closes
vehicle 1 and awards it to the bidder of its single (hence maximal)
bid, while the closed vehicle 2 is returned unchanged. -/
theorem sweep_finalizes_expired_witness :
    vehOpen ∈ dbBid.vehicles ∧ vehOpen.isActive = true ∧
    vehOpen.auctionEnd ≤ (20 : Int) ∧
    (finalizeVehicle chooseFirstMax dbBid 20 vehOpen).isActive = false :=
  ⟨by decide, by decide, by decide,
   ((sweep_finalizes_expired chooseFirstMax chooseFirstMax_contract dbBid 20
       vehOpen (by decide)).2.2.1 (by decide) (by decide)).1⟩

/-- C5 counterexample: on a lot whose two bids tie at the maximum
amount, both the earliest-on-tie scan and the latest-on-tie scan
satisfy the contract of the source's winner query (`order_by` amount
descending, take the first row — no secondary key), yet they award the
lot to different bidders, and the latest-on-tie scan awards it to the
later-placed bid.  So the source does not determine the earliest-placed
winner on ties. -/
theorem sweep_tiebreak_cex :
    topBidContract (lotBids dbTie 1) (chooseFirstMax (lotBids dbTie 1)) ∧
    topBidContract (lotBids dbTie 1) (chooseLastMax (lotBids dbTie 1)) ∧
    lotBids dbTie 1 = [bidTieA, bidTieB] ∧
    bidTieA.amount = bidTieB.amount ∧
    bidTieA.createdAt < bidTieB.createdAt ∧
    chooseLastMax (lotBids dbTie 1) = some bidTieB ∧
    (finalizeVehicle chooseLastMax dbTie 20 vehOpen).ownerId =
      some bidTieB.userId ∧
    (finalizeVehicle chooseFirstMax dbTie 20 vehOpen).ownerId =
      some bidTieA.userId ∧
    bidTieB.userId ≠ bidTieA.userId := by
  decide

/-- C5 amended: the winner query returns a maximal-amount bid of the
lot; when the maximum is strict (no tie) every implementation of the
query contract returns that same bid, so the pick is deterministic; on
an exact tie the pick is implementation-defined. -/
theorem sweep_winner_maximal (choose : List Bid → Option Bid)
    (hchoose : ∀ bids, topBidContract bids (choose bids))
    (bids : List Bid) (b : Bid) (hb : choose bids = some b) :
    b ∈ bids ∧ (∀ c ∈ bids, c.amount ≤ b.amount) ∧
    ∀ choose2 : List Bid → Option Bid,
      (∀ bs, topBidContract bs (choose2 bs)) →
      (∀ c ∈ bids, c ≠ b → c.amount < b.amount) →
      choose2 bids = some b := by
  have hx := hchoose bids
  rw [hb] at hx
  have hbm : b ∈ bids ∧ ∀ c ∈ bids, c.amount ≤ b.amount := by
    simpa [topBidContract] using hx
  refine ⟨hbm.1, hbm.2, fun choose2 hc2 hstrict => ?_⟩
  have hy := hc2 bids
  cases hb2 : choose2 bids with
  | none =>
    rw [hb2] at hy
    have : bids = [] := by simpa [topBidContract] using hy
    rw [this] at hbm
    cases hbm.1
  | some b2 =>
    rw [hb2] at hy
    have hb2m : b2 ∈ bids ∧ ∀ c ∈ bids, c.amount ≤ b2.amount := by
      simpa [topBidContract] using hy
    by_cases heq : b2 = b
    · rw [heq]
    · have hlt : b2.amount < b.amount := hstrict b2 hb2m.1 heq
      have hge : b.amount ≤ b2.amount := hb2m.2 b hbm.1
      exact absurd hge (not_le.mpr hlt)

/-- Witness for C5's amended statement: on the concrete single-bid
database each contract-satisfying query returns the unique bid. -/
theorem sweep_winner_maximal_witness :
    chooseFirstMax (lotBids dbBid 1) = some bidWin ∧
    bidWin ∈ lotBids dbBid 1 ∧
    chooseLastMax (lotBids dbBid 1) = some bidWin :=
  ⟨by decide,
   (sweep_winner_maximal chooseFirstMax chooseFirstMax_contract
      (lotBids dbBid 1) bidWin (by decide)).1,
   (sweep_winner_maximal chooseFirstMax chooseFirstMax_contract
      (lotBids dbBid 1) bidWin (by decide)).2.2 chooseLastMax
      chooseLastMax_contract (by decide)⟩

/-- Witness for C6 at the concrete sample database: the closed vehicle
is untouched and the double sweep equals the single sweep. -/
theorem sweep_idempotent_closed_witness :
    vehClosed ∈ dbSample.vehicles ∧ vehClosed.isActive = false ∧
    finalizeVehicle chooseFirstMax dbSample 20 vehClosed = vehClosed ∧
    finalize_auctions chooseFirstMax
        (finalize_auctions chooseFirstMax dbSample 20) 20 =
      finalize_auctions chooseFirstMax dbSample 20 :=
  ⟨by decide, by decide,
   (sweep_idempotent_closed chooseFirstMax dbSample 20).1 vehClosed
     (by decide) (by decide),
   (sweep_idempotent_closed chooseFirstMax dbSample 20).2.2⟩

/-- Folding `disconnect` over a list of handles erases each of them in
turn from the active list. -/
theorem foldl_disconnect_active (dead : List Handle) :
    ∀ m : ConnectionManager,
      (dead.foldl ConnectionManager.disconnect m).active =
        dead.foldl List.erase m.active := by
  induction dead with
  | nil => intro m; rfl
  | cons d ds ih => intro m; exact ih (m.disconnect d)

/-- Erasing a sublist of handles from a duplicate-free list keeps
exactly the handles outside that sublist. -/
theorem mem_foldl_erase (x : Handle) :
    ∀ (dead act : List Handle), act.Nodup →
      (x ∈ dead.foldl List.erase act ↔ x ∈ act ∧ x ∉ dead) := by
  intro dead
  induction dead with
  | nil => intro act _; simp
  | cons d ds ih =>
    intro act hnd
    rw [List.foldl_cons, ih (act.erase d) (hnd.erase d)]
    constructor
    · rintro ⟨hx, hds⟩
      obtain ⟨hxd, hxa⟩ := (List.Nodup.mem_erase_iff hnd).mp hx
      exact ⟨hxa, by simp [hxd, hds]⟩
    · rintro ⟨hx, hnin⟩
      have hxd : x ≠ d := fun h => hnin (by simp [h])
      have hxds : x ∉ ds := fun h => hnin (List.mem_cons_of_mem _ h)
      exact ⟨(List.Nodup.mem_erase_iff hnd).mpr ⟨hxd, hx⟩, hxds⟩

/-- C7: `broadcast` attempts delivery to every handle currently in the
connection set; afterwards a handle remains connected exactly when it
was connected and its delivery succeeded — every failed handle is
pruned by the same call; and the HTTP result and database state of the
bid request that triggered the broadcast are identical for every
delivery-outcome oracle, so no delivery failure reaches the caller. -/
theorem broadcast_attempts_and_prunes (m : ConnectionManager)
    (ok : Handle → Bool) (hnd : m.active.Nodup) :
    (m.broadcast ok).1 = m.active ∧
    (∀ ws, ws ∈ (m.broadcast ok).2.active ↔ ws ∈ m.active ∧ ok ws = true) ∧
    ∀ (db : DB) (user : Option User) (bid : BidCreate) (now : Int)
        (nid : Nat) (ok2 : Handle → Bool),
      (api_place_bid_ws db m user bid now nid ok).1 =
        (api_place_bid_ws db m user bid now nid ok2).1 ∧
      (api_place_bid_ws db m user bid now nid ok).2.1 =
        (api_place_bid_ws db m user bid now nid ok2).2.1 := by
  refine ⟨rfl, fun ws => ?_, fun db user bid now nid ok2 => ?_⟩
  · show ws ∈ ((m.active.filter fun h => ok h = false).foldl
        ConnectionManager.disconnect m).active ↔ _
    rw [foldl_disconnect_active, mem_foldl_erase ws _ _ hnd]
    constructor
    · rintro ⟨hx, hnf⟩
      refine ⟨hx, ?_⟩
      cases hok : ok ws
      · exact absurd (List.mem_filter.mpr ⟨hx, by simp [hok]⟩) hnf
      · rfl
    · rintro ⟨hx, hok⟩
      refine ⟨hx, fun hf => ?_⟩
      have hbad := (List.mem_filter.mp hf).2
      simp [hok] at hbad
  · cases h : api_place_bid db user bid now nid with
    | mk r db2 => cases r <;> simp [api_place_bid_ws, h]

/-- Witness for C7 at a concrete manager: all three handles are
attempted, the dead handle is pruned, the live ones survive. -/
theorem broadcast_attempts_and_prunes_witness :
    cmSample.active.Nodup ∧
    (cmSample.broadcast okSample).1 = cmSample.active ∧
    ((10 : Handle) ∈ (cmSample.broadcast okSample).2.active ↔
      (10 : Handle) ∈ cmSample.active ∧ okSample 10 = true) ∧
    ((11 : Handle) ∈ (cmSample.broadcast okSample).2.active ↔
      (11 : Handle) ∈ cmSample.active ∧ okSample 11 = true) :=
  ⟨by decide,
   (broadcast_attempts_and_prunes cmSample okSample (by decide)).1,
   (broadcast_attempts_and_prunes cmSample okSample (by decide)).2.1 10,
   (broadcast_attempts_and_prunes cmSample okSample (by decide)).2.1 11⟩

/-- C9: the bid history endpoint returns a permutation of exactly the
bids whose `vehicle_id` references the lot, sorted by `created_at`
descending (most recent first). -/
theorem get_bids_history (db : DB) (vid : Nat) :
    (api_get_bids db vid).Perm (lotBids db vid) ∧
    List.Sorted placedNoEarlier (api_get_bids db vid) ∧
    ∀ b : Bid, b ∈ api_get_bids db vid ↔ b ∈ db.bids ∧ b.vehicleId = vid := by
  refine ⟨List.perm_insertionSort _ _, List.sorted_insertionSort _ _, fun b => ?_⟩
  rw [show api_get_bids db vid =
        List.insertionSort placedNoEarlier (lotBids db vid) from rfl,
      List.Perm.mem_iff (List.perm_insertionSort _ _)]
  simp [lotBids, List.mem_filter]

/-- A successful vehicle lookup returns a member row carrying the
queried id. -/
theorem findVehicle_id {db : DB} {vid : Nat} {v : Vehicle}
    (h : findVehicle db vid = some v) : v ∈ db.vehicles ∧ v.id = vid :=
  ⟨List.mem_of_find?_eq_some h, by simpa using List.find?_some h⟩

/-- C10: `api_place_bid` is atomic.  On every rejection the database is
returned exactly as it was — no bid row, no field change.  On
acceptance exactly one bid row is appended and, row by row, every
vehicle keeps its id, starting price, deadline, active flag and owner;
rows other than the target are completely unchanged and the target row
only has its `current_price` set to the accepted amount. -/
theorem placeBid_atomic (db : DB) (user : Option User) (bid : BidCreate)
    (now : Int) (nid : Nat) :
    (∀ e : BidError, (api_place_bid db user bid now nid).1 = .error e →
      (api_place_bid db user bid now nid).2 = db) ∧
    ∀ nb : Bid, (api_place_bid db user bid now nid).1 = .ok nb →
      (api_place_bid db user bid now nid).2.bids = db.bids ++ [nb] ∧
      (api_place_bid db user bid now nid).2.vehicles.length =
        db.vehicles.length ∧
      ∀ i (hi : i < db.vehicles.length)
          (hi2 : i < (api_place_bid db user bid now nid).2.vehicles.length),
        (((api_place_bid db user bid now nid).2.vehicles.get ⟨i, hi2⟩).id =
            (db.vehicles.get ⟨i, hi⟩).id ∧
         ((api_place_bid db user bid now nid).2.vehicles.get
            ⟨i, hi2⟩).startingPrice = (db.vehicles.get ⟨i, hi⟩).startingPrice ∧
         ((api_place_bid db user bid now nid).2.vehicles.get
            ⟨i, hi2⟩).auctionEnd = (db.vehicles.get ⟨i, hi⟩).auctionEnd ∧
         ((api_place_bid db user bid now nid).2.vehicles.get
            ⟨i, hi2⟩).isActive = (db.vehicles.get ⟨i, hi⟩).isActive ∧
         ((api_place_bid db user bid now nid).2.vehicles.get
            ⟨i, hi2⟩).ownerId = (db.vehicles.get ⟨i, hi⟩).ownerId) ∧
        ((db.vehicles.get ⟨i, hi⟩).id ≠ bid.vehicleId →
          (api_place_bid db user bid now nid).2.vehicles.get ⟨i, hi2⟩ =
            db.vehicles.get ⟨i, hi⟩) ∧
        ((db.vehicles.get ⟨i, hi⟩).id = bid.vehicleId →
          ((api_place_bid db user bid now nid).2.vehicles.get
            ⟨i, hi2⟩).currentPrice = bid.amount) := by
  cases user with
  | none => exact ⟨fun _ _ => rfl, fun nb h => nomatch h⟩
  | some u =>
    by_cases ha : u.isAdmin
    · have he : api_place_bid db (some u) bid now nid =
          (.error .adminForbidden, db) := by simp [api_place_bid, ha]
      rw [he]
      exact ⟨fun _ _ => rfl, fun nb h => nomatch h⟩
    · cases hf : findVehicle db bid.vehicleId with
      | none =>
        have he : api_place_bid db (some u) bid now nid =
            (.error .notFound, db) := by simp [api_place_bid, ha, hf]
        rw [he]
        exact ⟨fun _ _ => rfl, fun nb h => nomatch h⟩
      | some v =>
        by_cases h1 : v.isActive = false
        · have he : api_place_bid db (some u) bid now nid =
              (.error .closed, db) := by simp [api_place_bid, ha, hf, h1]
          rw [he]
          exact ⟨fun _ _ => rfl, fun nb h => nomatch h⟩
        · by_cases h2 : v.auctionEnd ≤ now
          · have he : api_place_bid db (some u) bid now nid =
                (.error .expired, db) := by simp [api_place_bid, ha, hf, h1, h2]
            rw [he]
            exact ⟨fun _ _ => rfl, fun nb h => nomatch h⟩
          · by_cases h3 : bid.amount ≤ v.currentPrice
            · have he : api_place_bid db (some u) bid now nid =
                  (.error .tooLow, db) := by
                simp [api_place_bid, ha, hf, h1, h2, h3]
              rw [he]
              exact ⟨fun _ _ => rfl, fun nb h => nomatch h⟩
            · have hvid := (findVehicle_id hf).2
              have he : api_place_bid db (some u) bid now nid =
                  (.ok { id := nid, amount := bid.amount, userId := u.id,
                         vehicleId := bid.vehicleId, createdAt := now },
                   { vehicles := db.vehicles.map (fun w =>
                       if w.id = bid.vehicleId then
                         { w with currentPrice := bid.amount } else w),
                     bids := db.bids ++
                       [{ id := nid, amount := bid.amount, userId := u.id,
                          vehicleId := bid.vehicleId, createdAt := now }] }) := by
                simp [api_place_bid, ha, hf, h1, h2, h3, hvid]
              rw [he]
              refine ⟨fun e h => (nomatch h), fun nb h => ?_⟩
              have hnb : ({ id := nid, amount := bid.amount,
                              userId := u.id, vehicleId := bid.vehicleId,
                              createdAt := now } : Bid) = nb :=
                Except.ok.inj h
              rw [← hnb]
              refine ⟨rfl, by simp, fun i hi hi2 => ?_⟩
              simp only [List.get_eq_getElem, List.getElem_map]
              by_cases hid : (db.vehicles.get ⟨i, hi⟩).id = bid.vehicleId <;>
                simp [List.get_eq_getElem] at hid ⊢ <;> simp [hid]

/-- Witness for C10: the concrete closed-lot rejection leaves the
sample database untouched. -/
theorem placeBid_atomic_witness :
    (api_place_bid dbSample (some bidder1) reqClosed 0 7).1 =
      .error .closed ∧
    (api_place_bid dbSample (some bidder1) reqClosed 0 7).2 = dbSample :=
  ⟨rfl,
   (placeBid_atomic dbSample (some bidder1) reqClosed 0 7).1 .closed rfl⟩

/-- Rewriting the price of the vehicle with primary key `vid` commutes
with looking `vid` up: the lookup returns the same row with only
`current_price` replaced. -/
theorem find_update (vid : Nat) (amt : Int) :
    ∀ (l : List Vehicle) (v : Vehicle),
      l.find? (fun w => w.id = vid) = some v →
      (l.map (fun w =>
          if w.id = vid then { w with currentPrice := amt } else w)).find?
          (fun w => w.id = vid) = some { v with currentPrice := amt } := by
  intro l
  induction l with
  | nil => intro v hv; cases hv
  | cons a rest ih =>
    intro v hv
    by_cases ha : a.id = vid
    · rw [List.find?_cons_of_pos _ (by simpa using ha)] at hv
      have hav : a = v := by injection hv
      subst hav
      rw [List.map_cons, if_pos ha, List.find?_cons_of_pos _ (by simpa using ha)]
    · rw [List.find?_cons_of_neg _ (by simpa using ha)] at hv
      rw [List.map_cons, if_neg ha, List.find?_cons_of_neg _ (by simpa using ha)]
      exact ih v hv

/-- C1 counterexample, an interleaving of the two phases of two bid
requests: both requests validate against the same state and read
`current_price = 100`; the 160 bid commits; then the 150 bid's commit —
issued when the lot's `current_price` (160) no longer equals the 100 it
read — still succeeds, both bid rows exist, and the final price is 150,
lower than the accepted 160.  No compare is performed at commit time,
nothing is retried, and no `Conflict` arises (the source's error type
has no such outcome). -/
theorem placeBid_lost_update_cex :
    validateBid dbSample bidder1 reqHigh 0 = .ok 100 ∧
    validateBid dbSample bidder2 reqOpen 0 = .ok 100 ∧
    (findVehicle (commitBid dbSample bidder1 reqHigh 0 1).2 1).map
      Vehicle.currentPrice = some 160 ∧
    (findVehicle (commitBid (commitBid dbSample bidder1 reqHigh 0 1).2
        bidder2 reqOpen 0 2).2 1).map Vehicle.currentPrice = some 150 ∧
    (commitBid (commitBid dbSample bidder1 reqHigh 0 1).2
        bidder2 reqOpen 0 2).2.bids.length = 2 :=
  ⟨rfl, rfl, rfl, rfl, rfl⟩

/-- C1 amended: the commit phase of `api_place_bid` performs no compare
against the price read during validation — from any state in which the
target vehicle exists, even one whose `current_price` already differs
from the value a validation read, the commit succeeds, appends its bid
row and overwrites `current_price` with the bid amount; and
`api_place_bid` itself is exactly the validation phase followed, on
success, by this unconditional commit, with no retry and no `Conflict`
outcome.  Lost updates are prevented only when the two phases of a
request run without interleaving. -/
theorem placeBid_commit_unconditional (db : DB) (u : User) (req : BidCreate)
    (now readPrice : Int) (nid : Nat) (v : Vehicle)
    (hv : findVehicle db req.vehicleId = some v)
    (_hm : v.currentPrice ≠ readPrice) :
    (commitBid db u req now nid).2.bids =
      db.bids ++ [(commitBid db u req now nid).1] ∧
    (findVehicle (commitBid db u req now nid).2 req.vehicleId).map
      Vehicle.currentPrice = some req.amount ∧
    api_place_bid db (some u) req now nid =
      (match validateBid db u req now with
       | .error e => (.error e, db)
       | .ok _ => (.ok (commitBid db u req now nid).1,
                   (commitBid db u req now nid).2)) := by
  refine ⟨rfl, ?_, ?_⟩
  · have hu := find_update req.vehicleId req.amount db.vehicles v hv
    show ((db.vehicles.map _).find? _).map Vehicle.currentPrice = _
    rw [hu]
    rfl
  · have hvid := (findVehicle_id hv).2
    by_cases ha : u.isAdmin
    · simp [api_place_bid, validateBid, ha]
    · by_cases h1 : v.isActive = false
      · simp [api_place_bid, validateBid, ha, hv, h1]
      · by_cases h2 : v.auctionEnd ≤ now
        · simp [api_place_bid, validateBid, ha, hv, h1, h2]
        · by_cases h3 : req.amount ≤ v.currentPrice
          · simp [api_place_bid, validateBid, ha, hv, h1, h2, h3]
          · simp [api_place_bid, validateBid, commitBid, ha, hv, h1, h2, h3,
              hvid]

/-- Witness for C1's amended statement: committing the 150 bid against
the state where the price is already 160 (≠ the 100 read) succeeds and
sets the price to 150. -/
theorem placeBid_commit_unconditional_witness :
    findVehicle (commitBid dbSample bidder1 reqHigh 0 1).2
      reqOpen.vehicleId = some vehAfterHigh ∧
    vehAfterHigh.currentPrice ≠ (100 : Int) ∧
    (findVehicle (commitBid (commitBid dbSample bidder1 reqHigh 0 1).2
        bidder2 reqOpen 0 2).2 reqOpen.vehicleId).map
      Vehicle.currentPrice = some reqOpen.amount :=
  ⟨rfl, by decide,
   (placeBid_commit_unconditional (commitBid dbSample bidder1 reqHigh 0 1).2
      bidder2 reqOpen 0 100 2 vehAfterHigh rfl (by decide)).2.1⟩

/-- Appending a bid row that references lot `vid` appends it to that
lot's history, whatever happens to the vehicles table. -/
theorem lotBids_snoc_eq (db : DB) (l : List Vehicle) (nb : Bid) (vid : Nat)
    (h : nb.vehicleId = vid) :
    lotBids { vehicles := l, bids := db.bids ++ [nb] } vid =
      lotBids db vid ++ [nb] := by
  show (db.bids ++ [nb]).filter _ = _
  rw [List.filter_append]
  simp [lotBids, h]

/-- Appending a bid row that references another lot leaves this lot's
history unchanged, whatever happens to the vehicles table. -/
theorem lotBids_snoc_ne (db : DB) (l : List Vehicle) (nb : Bid) (vid : Nat)
    (h : nb.vehicleId ≠ vid) :
    lotBids { vehicles := l, bids := db.bids ++ [nb] } vid =
      lotBids db vid := by
  show (db.bids ++ [nb]).filter _ = _
  rw [List.filter_append]
  simp [lotBids, h]

/-- The per-lot finalization step never changes a vehicle's id, current
price or starting price. -/
theorem finalizeVehicle_fields (choose : List Bid → Option Bid) (db : DB)
    (now : Int) (v : Vehicle) :
    (finalizeVehicle choose db now v).id = v.id ∧
    (finalizeVehicle choose db now v).currentPrice = v.currentPrice ∧
    (finalizeVehicle choose db now v).startingPrice = v.startingPrice := by
  unfold finalizeVehicle
  by_cases h : v.isActive = true ∧ v.auctionEnd ≤ now
  · cases hc : choose (lotBids db v.id) <;> simp [h, hc]
  · simp [h]

/-- Case analysis of `api_place_bid`: either the database is returned
unchanged (every rejection path), or the request was accepted — the
caller is a non-admin user, the vehicle exists, is active, not expired,
the amount beats the current price, and the result state appends
exactly the new bid row and rewrites the target vehicle's price. -/
theorem api_place_bid_cases (db : DB) (user : Option User) (bid : BidCreate)
    (now : Int) (nid : Nat) :
    (api_place_bid db user bid now nid).2 = db ∨
    ∃ u v, user = some u ∧ u.isAdmin = false ∧
      findVehicle db bid.vehicleId = some v ∧ v.isActive = true ∧
      now < v.auctionEnd ∧ v.currentPrice < bid.amount ∧
      (api_place_bid db user bid now nid).2 =
        { vehicles := db.vehicles.map (fun w =>
            if w.id = bid.vehicleId then
              { w with currentPrice := bid.amount } else w),
          bids := db.bids ++
            [{ id := nid, amount := bid.amount, userId := u.id,
               vehicleId := bid.vehicleId, createdAt := now }] } := by
  cases user with
  | none => exact Or.inl rfl
  | some u =>
    by_cases ha : u.isAdmin
    · exact Or.inl (by simp [api_place_bid, ha])
    · cases hf : findVehicle db bid.vehicleId with
      | none => exact Or.inl (by simp [api_place_bid, ha, hf])
      | some v =>
        by_cases h1 : v.isActive = false
        · exact Or.inl (by simp [api_place_bid, ha, hf, h1])
        · by_cases h2 : v.auctionEnd ≤ now
          · exact Or.inl (by simp [api_place_bid, ha, hf, h1, h2])
          · by_cases h3 : bid.amount ≤ v.currentPrice
            · exact Or.inl (by simp [api_place_bid, ha, hf, h1, h2, h3])
            · refine Or.inr ⟨u, v, rfl, (by simpa using ha), rfl,
                (by simpa using h1), not_le.mp h2, not_le.mp h3, ?_⟩
              simp [api_place_bid, ha, hf, h1, h2, h3, (findVehicle_id hf).2]

/-- C2: the price invariant — `current_price` equals the amount of the
most recently accepted bid, or `starting_price` when the lot has none —
is established by lot creation and preserved by every operation
(`placeBid`, the sweep, reschedule), and `current_price` is
non-decreasing across every operation, given unique vehicle primary
keys and a fresh key for creation. -/
theorem price_invariant_preserved (choose : List Bid → Option Bid)
    (db : DB) (op : Op) (hwf : uniqIds db) (hinv : priceInv db)
    (hfresh : opFresh db op) :
    priceInv (step choose db op) ∧
    ∀ v2 ∈ (step choose db op).vehicles, ∀ v ∈ db.vehicles,
      v.id = v2.id → v.currentPrice ≤ v2.currentPrice := by
  cases op with
  | addVehicle vid p e =>
    obtain ⟨hfv, hfb⟩ := hfresh
    constructor
    · intro v2 hv2
      rcases List.mem_append.mp hv2 with h | h
      · exact hinv v2 h
      · have hv2e : v2 = { id := vid, startingPrice := p,
                             currentPrice := p, auctionEnd := e,
                             isActive := true, ownerId := none } := by
          simpa using h
        have hnil : lotBids db vid = [] :=
          List.filter_eq_nil_iff.mpr (fun c hc => by simpa using hfb c hc)
        rw [hv2e]
        show p = ((lotBids db vid).getLast?.map Bid.amount).getD p
        rw [hnil]
        rfl
    · intro v2 hv2 v hv hid
      rcases List.mem_append.mp hv2 with h | h
      · have : v = v2 := List.inj_on_of_nodup_map hwf hv h hid
        rw [this]
      · have hv2e : v2 = { id := vid, startingPrice := p,
                             currentPrice := p, auctionEnd := e,
                             isActive := true, ownerId := none } := by
          simpa using h
        exact absurd (by rw [hid, hv2e]) (hfv v hv)
  | placeBid user bid now nid =>
    simp only [step]
    rcases api_place_bid_cases db user bid now nid with
      h | ⟨u, v0, _hus, _ha, hf, _h1, _h2, h3, hdb⟩
    · rw [h]
      refine ⟨hinv, fun v2 hv2 v hv hid => ?_⟩
      have : v = v2 := List.inj_on_of_nodup_map hwf hv hv2 hid
      rw [this]
    · rw [hdb]
      obtain ⟨hv0mem, hv0id⟩ := findVehicle_id hf
      constructor
      · intro v2 hv2
        obtain ⟨w, hw, hfw⟩ := List.mem_map.mp hv2
        by_cases hwid : w.id = bid.vehicleId
        · rw [if_pos hwid] at hfw
          have hv2w : v2 = { w with currentPrice := bid.amount } := hfw.symm
          have hv2id : v2.id = w.id := by rw [hv2w]
          have hl := lotBids_snoc_eq db
            (db.vehicles.map (fun w =>
              if w.id = bid.vehicleId then
                { w with currentPrice := bid.amount } else w))
            { id := nid, amount := bid.amount, userId := u.id,
              vehicleId := bid.vehicleId, createdAt := now }
            v2.id (by rw [hv2id, hwid])
          show v2.currentPrice = _
          rw [hl, List.getLast?_concat, hv2w]
          rfl
        · rw [if_neg hwid] at hfw
          have hv2id : v2.id = w.id := by rw [← hfw]
          have hl := lotBids_snoc_ne db
            (db.vehicles.map (fun w =>
              if w.id = bid.vehicleId then
                { w with currentPrice := bid.amount } else w))
            { id := nid, amount := bid.amount, userId := u.id,
              vehicleId := bid.vehicleId, createdAt := now }
            v2.id (by rw [hv2id]; exact fun hc => hwid hc.symm)
          show v2.currentPrice = _
          rw [hl, ← hfw]
          exact hinv w hw
      · intro v2 hv2 v hv hid2
        obtain ⟨w, hw, hfw⟩ := List.mem_map.mp hv2
        by_cases hwid : w.id = bid.vehicleId
        · rw [if_pos hwid] at hfw
          have hvw : v = w :=
            List.inj_on_of_nodup_map hwf hv hw (by rw [hid2, ← hfw])
          have hwv0 : w = v0 :=
            List.inj_on_of_nodup_map hwf hw hv0mem (by rw [hwid, hv0id])
          rw [← hfw]
          show v.currentPrice ≤ bid.amount
          rw [hvw, hwv0]
          exact le_of_lt h3
        · rw [if_neg hwid] at hfw
          have hvw : v = w :=
            List.inj_on_of_nodup_map hwf hv hw (by rw [hid2, ← hfw])
          rw [hvw, ← hfw]
  | sweep now =>
    simp only [step]
    constructor
    · intro v2 hv2
      obtain ⟨w, hw, hfw⟩ := List.mem_map.mp hv2
      obtain ⟨hid, hcur, hstart⟩ := finalizeVehicle_fields choose db now w
      have hv2id : v2.id = w.id := by rw [← hfw]; exact hid
      show v2.currentPrice = ((lotBids db v2.id).getLast?.map Bid.amount).getD
        v2.startingPrice
      rw [hv2id, ← hfw, hcur, hstart]
      exact hinv w hw
    · intro v2 hv2 v hv hid2
      obtain ⟨w, hw, hfw⟩ := List.mem_map.mp hv2
      obtain ⟨hid, hcur, _⟩ := finalizeVehicle_fields choose db now w
      have hvw : v = w :=
        List.inj_on_of_nodup_map hwf hv hw (by rw [hid2, ← hfw, hid])
      rw [hvw, ← hfw, hcur]
  | reschedule vid e =>
    simp only [step]
    have hfields : ∀ w : Vehicle,
        ((if w.id = vid then { w with auctionEnd := e } else w) : Vehicle).id =
          w.id ∧
        ((if w.id = vid then { w with auctionEnd := e } else w) :
          Vehicle).currentPrice = w.currentPrice ∧
        ((if w.id = vid then { w with auctionEnd := e } else w) :
          Vehicle).startingPrice = w.startingPrice := by
      intro w
      by_cases h : w.id = vid <;> simp [h]
    constructor
    · intro v2 hv2
      obtain ⟨w, hw, hfw⟩ := List.mem_map.mp hv2
      obtain ⟨hid, hcur, hstart⟩ := hfields w
      have hv2id : v2.id = w.id := by rw [← hfw]; exact hid
      show v2.currentPrice = ((lotBids db v2.id).getLast?.map Bid.amount).getD
        v2.startingPrice
      rw [hv2id, ← hfw, hcur, hstart]
      exact hinv w hw
    · intro v2 hv2 v hv hid2
      obtain ⟨w, hw, hfw⟩ := List.mem_map.mp hv2
      obtain ⟨hid, hcur, _⟩ := hfields w
      have hvw : v = w :=
        List.inj_on_of_nodup_map hwf hv hw (by rw [hid2, ← hfw, hid])
      rw [hvw, ← hfw, hcur]

/-- Witness for C2: the sample database satisfies the invariant, and it
is preserved by the concrete accepted bid of 150 on vehicle 1. -/
theorem price_invariant_preserved_witness :
    uniqIds dbSample ∧ priceInv dbSample ∧
    opFresh dbSample (Op.placeBid (some bidder1) reqOpen 0 1) ∧
    priceInv (step chooseFirstMax dbSample
      (Op.placeBid (some bidder1) reqOpen 0 1)) :=
  ⟨by decide, by decide, trivial,
   (price_invariant_preserved chooseFirstMax dbSample
      (Op.placeBid (some bidder1) reqOpen 0 1) (by decide) (by decide)
      trivial).1⟩

end VehicleAuction
